import Mathlib

set_option maxRecDepth 100000
set_option linter.unusedVariables false

/-!
Verification of the `NoticeConsoleRewriter` stream rewriter from
`psiphon/utils.go`.

The Go code is embedded shallowly:

* bytes are modelled as `Char` (all inputs of interest are ASCII, so Go's
  byte count `len(p)` coincides with `List.length`);
* the `sync.Mutex` field only serializes calls and has no effect on the
  sequential semantics of one call, so it is not part of the state;
* `io.Writer` sinks are abstract handles (`Nat`); a `Write` call reports
  which byte sequences it sent to the constructed sink (`sinkWrites`) and
  which it sent to the process standard error stream via
  `fmt.Fprintf(os.Stderr, ...)` (`stderrWrites`);
* the result of the `fmt.Fprintf` call, which the Go code discards, is
  supplied by the environment as the `fprintfResult` argument.
-/

/-- The locally declared `NoticeObject` struct of `NoticeConsoleRewriter.Write`:
`NoticeType string`, `Data json.RawMessage`, `Timestamp string`. The Go zero
value gives every field the empty string (a nil `RawMessage` prints as ""). -/
structure NoticeObject where
  NoticeType : List Char
  Data : List Char
  Timestamp : List Char
  deriving DecidableEq, Repr

/-- The Go zero value of `NoticeObject`. -/
def zeroNoticeObject : NoticeObject := ⟨[], [], []⟩

/-- JSON whitespace, as accepted by `encoding/json`. -/
def isJSONSpace (c : Char) : Bool :=
  c = ' ' || c = '\t' || c = '\n' || c = '\r'

/-- Drop leading JSON whitespace. -/
def skipWS (s : List Char) : List Char := s.dropWhile isJSONSpace

/-- Value of a hexadecimal digit, `none` for a non-digit. -/
def hexVal (c : Char) : Option Nat :=
  if '0' ≤ c ∧ c ≤ '9' then some (c.toNat - '0'.toNat)
  else if 'a' ≤ c ∧ c ≤ 'f' then some (c.toNat - 'a'.toNat + 10)
  else if 'A' ≤ c ∧ c ≤ 'F' then some (c.toNat - 'A'.toNat + 10)
  else none

/-- Decoding of a single-character JSON string escape, per `encoding/json`. -/
def escChar (e : Char) : Option Char :=
  if e = '"' then some '"'
  else if e = '\\' then some '\\'
  else if e = '/' then some '/'
  else if e = 'b' then some (Char.ofNat 8)
  else if e = 'f' then some (Char.ofNat 12)
  else if e = 'n' then some '\n'
  else if e = 'r' then some '\r'
  else if e = 't' then some '\t'
  else none

/-- Decode the body of a JSON string (the characters after the opening quote)
up to and including the closing quote, resolving escapes as `encoding/json`
does. Returns the decoded characters and the input remaining after the
closing quote; `none` on a malformed or unterminated string. (`\uXXXX` is
decoded to the code point directly; surrogate-pair combination is not
modelled, and no input used below contains such escapes.) -/
def parseStringBody : List Char → Option (List Char × List Char)
  | [] => none
  | '"' :: rest => some ([], rest)
  | '\\' :: 'u' :: h1 :: h2 :: h3 :: h4 :: rest =>
    match hexVal h1, hexVal h2, hexVal h3, hexVal h4 with
    | some a, some b, some c, some d =>
      (parseStringBody rest).map
        (fun vr => (Char.ofNat (((a * 16 + b) * 16 + c) * 16 + d) :: vr.1, vr.2))
    | _, _, _, _ => none
  | '\\' :: e :: rest =>
    match escChar e with
    | some c => (parseStringBody rest).map (fun vr => (c :: vr.1, vr.2))
    | none => none
  | c :: rest => (parseStringBody rest).map (fun vr => (c :: vr.1, vr.2))

/-- Scan the body of a JSON string without decoding, keeping the escape
sequences verbatim, up to and including the closing quote. Returns the raw
characters and the remaining input. -/
def scanStringRaw : List Char → Option (List Char × List Char)
  | [] => none
  | '"' :: rest => some (['"'], rest)
  | '\\' :: 'u' :: h1 :: h2 :: h3 :: h4 :: rest =>
    match hexVal h1, hexVal h2, hexVal h3, hexVal h4 with
    | some _, some _, some _, some _ =>
      (scanStringRaw rest).map
        (fun vr => ('\\' :: 'u' :: h1 :: h2 :: h3 :: h4 :: vr.1, vr.2))
    | _, _, _, _ => none
  | '\\' :: e :: rest =>
    match escChar e with
    | some _ => (scanStringRaw rest).map (fun vr => ('\\' :: e :: vr.1, vr.2))
    | none => none
  | c :: rest => (scanStringRaw rest).map (fun vr => (c :: vr.1, vr.2))

/-- Scan the remainder of a compound JSON value (object or array) whose
opening bracket has already been consumed, by bracket counting, skipping over
string literals. `depth` is the number of open brackets (at least 1);
`inString`/`esc` track whether the scanner is inside a string literal and just
after a backslash. Returns the consumed characters (up to and including the
bracket closing the outermost level) and the remaining input. This models the
span that Go's scanner attributes to the value; interior separator placement
and bracket-kind pairing are not re-validated (no input used below exercises
that difference). -/
def scanCompoundTail : List Char → Nat → Bool → Bool → Option (List Char × List Char)
  | [], _, _, _ => none
  | c :: rest, depth, inString, esc =>
    if inString then
      if esc then
        (scanCompoundTail rest depth true false).map (fun vr => (c :: vr.1, vr.2))
      else if c = '\\' then
        (scanCompoundTail rest depth true true).map (fun vr => (c :: vr.1, vr.2))
      else if c = '"' then
        (scanCompoundTail rest depth false false).map (fun vr => (c :: vr.1, vr.2))
      else
        (scanCompoundTail rest depth true false).map (fun vr => (c :: vr.1, vr.2))
    else if c = '"' then
      (scanCompoundTail rest depth true false).map (fun vr => (c :: vr.1, vr.2))
    else if c = '{' || c = '[' then
      (scanCompoundTail rest (depth + 1) false false).map (fun vr => (c :: vr.1, vr.2))
    else if c = '}' || c = ']' then
      if depth = 1 then some ([c], rest)
      else (scanCompoundTail rest (depth - 1) false false).map (fun vr => (c :: vr.1, vr.2))
    else
      (scanCompoundTail rest depth false false).map (fun vr => (c :: vr.1, vr.2))

/-- A character that may continue a JSON number literal. -/
def isNumberChar (c : Char) : Bool :=
  c.isDigit || c = '-' || c = '+' || c = '.' || c = 'e' || c = 'E'

/-- Scan one JSON value, returning its raw characters and the remaining
input; `none` when no value starts here. Number syntax is scanned greedily
rather than re-validated. -/
def scanValue (s : List Char) : Option (List Char × List Char) :=
  match s with
  | '"' :: rest => (scanStringRaw rest).map (fun vr => ('"' :: vr.1, vr.2))
  | '{' :: rest => (scanCompoundTail rest 1 false false).map (fun vr => ('{' :: vr.1, vr.2))
  | '[' :: rest => (scanCompoundTail rest 1 false false).map (fun vr => ('[' :: vr.1, vr.2))
  | 't' :: 'r' :: 'u' :: 'e' :: rest => some (['t', 'r', 'u', 'e'], rest)
  | 'f' :: 'a' :: 'l' :: 's' :: 'e' :: rest => some (['f', 'a', 'l', 's', 'e'], rest)
  | 'n' :: 'u' :: 'l' :: 'l' :: rest => some (['n', 'u', 'l', 'l'], rest)
  | c :: rest =>
    if c.isDigit || c = '-' then
      some ((c :: rest).takeWhile isNumberChar, (c :: rest).dropWhile isNumberChar)
    else none
  | [] => none

/-- `encoding/json` validates the whole input syntactically (`checkValid`)
before decoding: one JSON value followed only by whitespace. -/
def checkValid (s : List Char) : Bool :=
  match scanValue (skipWS s) with
  | some (_, rest) => skipWS rest = []
  | none => false

/-- The struct key of the member, per the `json:"..."` tags. -/
def noticeTypeKey : List Char := 'n' :: 'o' :: 't' :: 'i' :: 'c' :: 'e' :: "Type".toList

/-- The `json:"timestamp"` tag. -/
def timestampKey : List Char := "timestamp".toList

/-- The `json:"data"` tag. -/
def dataKey : List Char := "data".toList

/-- Store a decoded string member into the matching struct field. -/
def setStringField (obj : NoticeObject) (key val : List Char) : NoticeObject :=
  if key = noticeTypeKey then { obj with NoticeType := val }
  else { obj with Timestamp := val }

/-- Decode one object member value for field `key`, mirroring how the
`encoding/json` decoder treats the `NoticeObject` struct: `noticeType` and
`timestamp` require a JSON string (a value of another type is recorded as an
`UnmarshalTypeError` — the `errored` flag — skipped, and decoding continues);
`data` is a `json.RawMessage`, so its raw span is kept verbatim; unknown keys
are skipped. Returns `none` only on a syntax error. -/
def parseMemberValue (obj : NoticeObject) (errored : Bool) (key s : List Char) :
    Option (NoticeObject × Bool × List Char) :=
  if key = noticeTypeKey ∨ key = timestampKey then
    match s with
    | '"' :: rest =>
      match parseStringBody rest with
      | none => none
      | some (val, rest2) => some (setStringField obj key val, errored, rest2)
    | _ =>
      match scanValue s with
      | none => none
      | some (_, rest2) => some (obj, true, rest2)
  else if key = dataKey then
    match scanValue s with
    | none => none
    | some (raw, rest2) => some ({ obj with Data := raw }, errored, rest2)
  else
    match scanValue s with
    | none => none
    | some (_, rest2) => some (obj, errored, rest2)

/-- Decode the members of the top-level object (the opening brace already
consumed), accumulating fields into `obj` and the saved-error flag into
`errored`, as the `encoding/json` object loop does. Fields decoded before a
syntax error remain set. `fuel` bounds the number of members and exceeds the
input length wherever this is called. -/
def parseMembers : Nat → NoticeObject → Bool → List Char → NoticeObject × Bool
  | 0, obj, _, _ => (obj, true)
  | fuel + 1, obj, errored, s =>
    match skipWS s with
    | '}' :: _ => (obj, errored)
    | '"' :: rest =>
      match parseStringBody rest with
      | none => (obj, true)
      | some (key, rest2) =>
        match skipWS rest2 with
        | ':' :: rest3 =>
          match parseMemberValue obj errored key (skipWS rest3) with
          | none => (obj, true)
          | some (obj2, errored2, rest4) =>
            match skipWS rest4 with
            | ',' :: rest5 => parseMembers fuel obj2 errored2 rest5
            | '}' :: _ => (obj2, errored2)
            | _ => (obj2, true)
        | _ => (obj, true)
    | _ => (obj, true)

/-- `json.Unmarshal(line, &noticeObject)` for the `NoticeObject` struct,
returning the populated struct and whether an error was returned (the Go code
discards that error). Mirrors `encoding/json`: the input is first validated as
a whole (a syntactically invalid input decodes nothing, leaving the zero
value); a valid top-level `null` is accepted and leaves the zero value; any
other non-object top-level value is an `UnmarshalTypeError` with zero fields;
an object is decoded member by member. Struct keys are matched exactly (the
decoder's case-insensitive fallback is not modelled; every input used below
uses exact keys). -/
def jsonUnmarshalNotice (line : List Char) : NoticeObject × Bool :=
  if checkValid line then
    match skipWS line with
    | '{' :: rest => parseMembers (rest.length + 1) zeroNoticeObject false rest
    | 'n' :: 'u' :: 'l' :: 'l' :: rest =>
      if skipWS rest = [] then (zeroNoticeObject, false) else (zeroNoticeObject, true)
    | _ => (zeroNoticeObject, true)
  else (zeroNoticeObject, true)

/-- `bytes.Index(buffer, []byte("\n"))`: index of the first newline, `none`
standing for Go's `-1`. -/
def bytesIndexNewline : List Char → Option Nat
  | [] => none
  | c :: rest =>
    if c = '\n' then some 0 else (bytesIndexNewline rest).map (· + 1)

/-- The line `fmt.Fprintf(os.Stderr, "%s %s %s\n", Timestamp, NoticeType,
string(Data))` produces. -/
def formatNotice (obj : NoticeObject) : List Char :=
  obj.Timestamp ++ ' ' :: obj.NoticeType ++ ' ' :: obj.Data ++ ['\n']

/-- The `NoticeConsoleRewriter` struct: the stored sink (`writer`, an
abstract handle) and the accumulation buffer. The `sync.Mutex` field is not
part of the sequential state. -/
structure NoticeConsoleRewriter where
  writer : Nat
  buffer : List Char
  deriving DecidableEq, Repr

/-- `NewNoticeConsoleRewriter`: stores the sink; the buffer starts at its
zero value, empty. -/
def NewNoticeConsoleRewriter (writer : Nat) : NoticeConsoleRewriter :=
  ⟨writer, []⟩

/-- Everything one `Write` call produces: the rewriter state after the call,
the byte sequences sent to `os.Stderr`, the byte sequences sent to the stored
`writer` sink, and the returned `(n, err)` pair. -/
structure WriteResult where
  state : NoticeConsoleRewriter
  stderrWrites : List (List Char)
  sinkWrites : List (List Char)
  n : Nat
  err : Option (List Char)
  deriving DecidableEq, Repr

/-- `NoticeConsoleRewriter.Write`, line for line: append `p` to the buffer;
find the first newline — if there is none, return `(len(p), nil)`; otherwise
slice off the first line, advance the buffer past it, `json.Unmarshal` it
into a `NoticeObject` discarding the error, `fmt.Fprintf` the formatted line
to `os.Stderr` discarding that result too (`fprintfResult` is what the
environment would have returned for that call), and return `(len(p), nil)`.
Nothing is ever written to the stored `writer`. -/
def NoticeConsoleRewriter.Write (rewriter : NoticeConsoleRewriter) (p : List Char)
    (fprintfResult : Option (List Char)) : WriteResult :=
  let buffer := rewriter.buffer ++ p
  match bytesIndexNewline buffer with
  | none => ⟨{ rewriter with buffer := buffer }, [], [], p.length, none⟩
  | some index =>
    let line := buffer.take index
    let noticeObject := (jsonUnmarshalNotice line).1
    ⟨{ rewriter with buffer := buffer.drop (index + 1) },
      [formatNotice noticeObject], [], p.length, none⟩

/-- Sequential `Write` calls, one per chunk, collecting all `os.Stderr`
output in order; the `fmt.Fprintf` calls succeed. -/
def WriteAll : NoticeConsoleRewriter → List (List Char) →
    NoticeConsoleRewriter × List (List Char)
  | rewriter, [] => (rewriter, [])
  | rewriter, c :: rest =>
    ((WriteAll (rewriter.Write c none).state rest).1,
      (rewriter.Write c none).stderrWrites ++
        (WriteAll (rewriter.Write c none).state rest).2)

example :
    jsonUnmarshalNotice ("\x7b\"noticeType\":\"Info\",\"data\":\x7b\"msg\":\"hi\"\x7d,\"timestamp\":\"2024-01-01T00:00:00Z\"\x7d".toList)
      = (⟨"Info".toList, "\x7b\"msg\":\"hi\"\x7d".toList, "2024-01-01T00:00:00Z".toList⟩, false) := by
  decide

example : jsonUnmarshalNotice ("not json".toList) = (zeroNoticeObject, true) := by
  decide

/-! ### Helper lemmas about the first-newline search and one `Write` call -/

/-- A byte sequence without a newline makes `bytes.Index` return `-1`. -/
theorem bytesIndexNewline_eq_none {l : List Char} (h : '\n' ∉ l) :
    bytesIndexNewline l = none := by
  induction l with
  | nil => rfl
  | cons c rest ih =>
    have hc : c ≠ '\n' := by rintro rfl; exact h (List.mem_cons_self _ _)
    have hr : '\n' ∉ rest := fun hm => h (List.mem_cons_of_mem c hm)
    simp [bytesIndexNewline, hc, ih hr]

/-- The first newline after a newline-free prefix `L` sits at index `L.length`. -/
theorem bytesIndexNewline_append {L r : List Char} (h : '\n' ∉ L) :
    bytesIndexNewline (L ++ '\n' :: r) = some L.length := by
  induction L with
  | nil => simp [bytesIndexNewline]
  | cons c rest ih =>
    have hc : c ≠ '\n' := by rintro rfl; exact h (List.mem_cons_self _ _)
    have hr : '\n' ∉ rest := fun hm => h (List.mem_cons_of_mem c hm)
    simp [bytesIndexNewline, hc, ih hr]

/-- What a found index means: everything before it is newline-free and the
character at it is the newline. -/
theorem bytesIndexNewline_some {l : List Char} {i : Nat}
    (h : bytesIndexNewline l = some i) :
    '\n' ∉ l.take i ∧ l.take (i + 1) = l.take i ++ ['\n'] := by
  induction l generalizing i with
  | nil => simp [bytesIndexNewline] at h
  | cons c rest ih =>
    by_cases hc : c = '\n'
    · subst hc
      simp [bytesIndexNewline] at h
      subst h
      simp
    · simp [bytesIndexNewline, hc] at h
      obtain ⟨j, hj, hij⟩ := h
      subst hij
      obtain ⟨h1, h2⟩ := ih hj
      refine ⟨?_, ?_⟩
      · intro hm
        rcases List.mem_cons.mp hm with hm | hm
        · exact hc hm.symm
        · exact h1 hm
      · simpa [List.take_succ_cons] using h2

/-- A `Write` whose appended buffer still has no newline: the chunk is only
buffered, nothing is emitted. -/
theorem Write_no_newline (r : NoticeConsoleRewriter) (p : List Char)
    (f : Option (List Char)) (h : '\n' ∉ r.buffer ++ p) :
    r.Write p f = ⟨⟨r.writer, r.buffer ++ p⟩, [], [], p.length, none⟩ := by
  simp [NoticeConsoleRewriter.Write, bytesIndexNewline_eq_none h]

/-- A `Write` whose appended buffer is a newline-free line `L`, its newline,
and a tail: the line is sliced off, formatted and sent to `os.Stderr`, and
the tail stays buffered. -/
theorem Write_complete_line (r : NoticeConsoleRewriter) (p L tail : List Char)
    (f : Option (List Char)) (hL : '\n' ∉ L)
    (hsplit : r.buffer ++ p = L ++ '\n' :: tail) :
    r.Write p f =
      ⟨⟨r.writer, tail⟩, [formatNotice (jsonUnmarshalNotice L).1], [],
        p.length, none⟩ := by
  have ht : (L ++ '\n' :: tail).take L.length = L := by simp
  have hd : (L ++ '\n' :: tail).drop (L.length + 1) = tail := by
    rw [← List.drop_drop, List.drop_left]
    rfl
  simp [NoticeConsoleRewriter.Write, hsplit, bytesIndexNewline_append hL, ht, hd]

/-- A run of `Write` calls none of whose chunks contains a newline, starting
from a newline-free buffer, emits nothing and only accumulates the chunks. -/
theorem WriteAll_no_newline (chunks : List (List Char)) (r : NoticeConsoleRewriter)
    (hc : ∀ c ∈ chunks, '\n' ∉ c) (hb : '\n' ∉ r.buffer) :
    WriteAll r chunks = (⟨r.writer, r.buffer ++ chunks.join⟩, []) := by
  induction chunks generalizing r with
  | nil => simp [WriteAll]
  | cons c rest ih =>
    have h1 : '\n' ∉ r.buffer ++ c := by
      intro hm
      rcases List.mem_append.mp hm with hm | hm
      · exact hb hm
      · exact hc c (List.mem_cons_self _ _) hm
    have ih' := ih ⟨r.writer, r.buffer ++ c⟩
      (fun d hd => hc d (List.mem_cons_of_mem _ hd)) h1
    simp [WriteAll, Write_no_newline r c none h1, ih', List.append_assoc]

/-- Output of sequential `Write` calls over concatenated chunk lists is the
concatenation of the outputs. -/
theorem WriteAll_append (r : NoticeConsoleRewriter) (xs ys : List (List Char)) :
    WriteAll r (xs ++ ys) =
      ((WriteAll (WriteAll r xs).1 ys).1,
        (WriteAll r xs).2 ++ (WriteAll (WriteAll r xs).1 ys).2) := by
  induction xs generalizing r with
  | nil => simp [WriteAll]
  | cons c rest ih => simp [WriteAll, ih, List.append_assoc]

/-! ### Concrete notice lines used as inputs below -/

/-- The valid notice line of the spec's first concrete scenario. -/
def C5line : List Char :=
  "\x7b\"noticeType\":\"Info\",\"data\":\x7b\"msg\":\"hi\"\x7d,\"timestamp\":\"2024-01-01T00:00:00Z\"\x7d".toList

/-- First chunk of the spec's split-line scenario. -/
def C6chunk1 : List Char := "\x7b\"noticeType\":\"Info\",".toList

/-- Second chunk of the spec's split-line scenario, carrying the newline. -/
def C6chunk2 : List Char := "\"data\":\x7b\x7d,\"timestamp\":\"T\"\x7d\n".toList

/-- The complete line split across `C6chunk1` and `C6chunk2`. -/
def C6line : List Char := "\x7b\"noticeType\":\"Info\",\"data\":\x7b\x7d,\"timestamp\":\"T\"\x7d".toList

/-- A small complete, valid notice line. -/
def C1lineA : List Char := "\x7b\"noticeType\":\"A\",\"data\":1,\"timestamp\":\"T1\"\x7d".toList

/-- A second small complete, valid notice line. -/
def C1lineB : List Char := "\x7b\"noticeType\":\"B\",\"data\":2,\"timestamp\":\"T2\"\x7d".toList

/-- A third small complete, valid notice line. -/
def C2line : List Char := "\x7b\"noticeType\":\"Info\",\"data\":0,\"timestamp\":\"T3\"\x7d".toList

/-- A valid notice line fed after the malformed one. -/
def C8line2 : List Char := "\x7b\"noticeType\":\"Alert\",\"data\":[1,2],\"timestamp\":\"T2\"\x7d".toList

/-- A line that fails to decode (`noticeType` holds a number, not a string —
an `UnmarshalTypeError`) while `data` and `timestamp` are still recovered. -/
def C8mixedLine : List Char := "\x7b\"noticeType\":7,\"data\":1,\"timestamp\":\"T\"\x7d".toList

/-! ### The claims -/

/-- C1: the claim says every complete newline-terminated line available after
appending the chunk is extracted and emitted within the same `Write` call —
two complete lines fed in one call should yield two formatted output lines.
The code extracts only the first line per call: feeding the concatenation of
two complete valid notice lines in a single `Write` emits exactly one
formatted line (the first), and the entire second line, newline included,
stays in the buffer. -/
theorem C1_only_first_line_flushed :
    (jsonUnmarshalNotice C1lineA).2 = false ∧
    (jsonUnmarshalNotice C1lineB).2 = false ∧
    ((NewNoticeConsoleRewriter 0).Write (C1lineA ++ '\n' :: C1lineB ++ ['\n'])
        none).stderrWrites = ["T1 A 1\n".toList] ∧
    ((NewNoticeConsoleRewriter 0).Write (C1lineA ++ '\n' :: C1lineB ++ ['\n'])
        none).state.buffer = C1lineB ++ ['\n'] := by
  decide

/-- C2: the claim says every formatted line goes to the sink supplied to
`NewNoticeConsoleRewriter`. The code never writes to the stored `writer`: no
call ever produces a sink write, while a complete line is formatted and sent
to `os.Stderr` instead. -/
theorem C2_output_bypasses_sink :
    (∀ (r : NoticeConsoleRewriter) (p : List Char) (f : Option (List Char)),
      (r.Write p f).sinkWrites = []) ∧
    ((NewNoticeConsoleRewriter 7).Write (C2line ++ ['\n']) none).sinkWrites = [] ∧
    ((NewNoticeConsoleRewriter 7).Write (C2line ++ ['\n']) none).stderrWrites =
      ["T3 Info 0\n".toList] := by
  refine ⟨fun r p f => ?_, by decide, by decide⟩
  rcases hidx : bytesIndexNewline (r.buffer ++ p) with _ | i <;>
    simp [NoticeConsoleRewriter.Write, hidx]

/-- C3 counterexample: on a call that extracts a line and whose `fmt.Fprintf`
fails (the environment returns an error, which the code discards), `Write`
still returns a nil error — refuting "non-nil error iff a write to the
underlying sink fails during that call". -/
theorem C3_counterexample :
    ¬ ((((NewNoticeConsoleRewriter 0).Write ("x\n".toList)
            (some ("sink closed".toList))).err ≠ none) ↔
        (((NewNoticeConsoleRewriter 0).Write ("x\n".toList)
            (some ("sink closed".toList))).stderrWrites ≠ [] ∧
          (some ("sink closed".toList) : Option (List Char)) ≠ none)) := by
  decide

/-- C3 amended: `Write` always reports having accepted the entire chunk
(`n = len(p)`) and always returns a nil error; failures of the underlying
output write are discarded, never surfaced to the caller. -/
theorem C3_write_returns_all_and_nil :
    ∀ (r : NoticeConsoleRewriter) (p : List Char) (f : Option (List Char)),
      (r.Write p f).n = p.length ∧ (r.Write p f).err = none := by
  intro r p f
  rcases hidx : bytesIndexNewline (r.buffer ++ p) with _ | i <;>
    simp [NoticeConsoleRewriter.Write, hidx]

/-- C4: the claim says the buffer contains no newline after a `Write` call.
Because only the first complete line is extracted per call, writing
"a\nb\nc" to a fresh rewriter leaves "b\nc" — which contains a newline — in
the buffer. -/
theorem C4_newline_left_in_buffer :
    ((NewNoticeConsoleRewriter 0).Write ("a\nb\nc".toList) none).state.buffer =
      "b\nc".toList ∧
    '\n' ∈ ((NewNoticeConsoleRewriter 0).Write ("a\nb\nc".toList) none).state.buffer := by
  decide

/-- C5: feeding one newline-terminated line `L` that `json.Unmarshal` decodes
without error to a fresh rewriter produces, in that call, exactly one
`os.Stderr` line `"<timestamp> <noticeType> <data>\n"` (the data payload kept
as its raw JSON text), empties the buffer, and returns `(len(L)+1, nil)`. -/
theorem C5_valid_line_formatted (w : Nat) (L : List Char) (obj : NoticeObject)
    (hL : '\n' ∉ L) (hv : jsonUnmarshalNotice L = (obj, false)) :
    (NewNoticeConsoleRewriter w).Write (L ++ ['\n']) none =
      ⟨⟨w, []⟩, [obj.Timestamp ++ ' ' :: obj.NoticeType ++ ' ' :: obj.Data ++ ['\n']],
        [], L.length + 1, none⟩ := by
  have hsplit : (NewNoticeConsoleRewriter w).buffer ++ (L ++ ['\n']) = L ++ '\n' :: [] := by
    simp [NewNoticeConsoleRewriter]
  have h := Write_complete_line (NewNoticeConsoleRewriter w) (L ++ ['\n']) L [] none hL hsplit
  rw [h, hv]
  simp [NewNoticeConsoleRewriter, formatNotice]

/-- C5 witness: the spec's concrete scenario, evaluated. -/
theorem C5_witness :
    (NewNoticeConsoleRewriter 0).Write (C5line ++ ['\n']) none =
      ⟨⟨0, []⟩, ["2024-01-01T00:00:00Z Info \x7b\"msg\":\"hi\"\x7d\n".toList], [], 77, none⟩ := by
  have h := C5_valid_line_formatted 0 C5line
    ⟨"Info".toList, "\x7b\"msg\":\"hi\"\x7d".toList, "2024-01-01T00:00:00Z".toList⟩
    (by decide) (by decide)
  exact h.trans (by decide)

/-- C6: a valid line split into chunks with the newline arriving in the last
chunk: the calls before the last produce no output, and the final call
produces exactly one formatted output line. -/
theorem C6_split_line (w : Nat) (init : List (List Char)) (last L : List Char)
    (obj : NoticeObject) (hinit : ∀ c ∈ init, '\n' ∉ c) (hL : '\n' ∉ L)
    (hjoin : init.join ++ last = L ++ ['\n'])
    (hv : jsonUnmarshalNotice L = (obj, false)) :
    (WriteAll (NewNoticeConsoleRewriter w) init).2 = [] ∧
    (WriteAll (NewNoticeConsoleRewriter w) (init ++ [last])).2 = [formatNotice obj] := by
  have hb : '\n' ∉ (NewNoticeConsoleRewriter w).buffer := by
    simp [NewNoticeConsoleRewriter]
  have h1 := WriteAll_no_newline init (NewNoticeConsoleRewriter w) hinit hb
  refine ⟨by rw [h1], ?_⟩
  rw [WriteAll_append, h1]
  have hsplit : (⟨w, init.join⟩ : NoticeConsoleRewriter).buffer ++ last =
      L ++ '\n' :: [] := by simpa using hjoin
  have hw := Write_complete_line ⟨w, init.join⟩ last L [] none hL hsplit
  simp only [NewNoticeConsoleRewriter]
  simp [WriteAll, hw, hv]

/-- C6 witness: the spec's split-line scenario, evaluated. -/
theorem C6_witness :
    (WriteAll (NewNoticeConsoleRewriter 0) [C6chunk1]).2 = [] ∧
    (WriteAll (NewNoticeConsoleRewriter 0) ([C6chunk1] ++ [C6chunk2])).2 =
      ["T Info \x7b\x7d\n".toList] := by
  have h := C6_split_line 0 [C6chunk1] C6chunk2 C6line
    ⟨"Info".toList, "\x7b\x7d".toList, "T".toList⟩
    (by decide) (by decide) (by decide) (by decide)
  exact ⟨h.1, h.2.trans (by decide)⟩

/-- C7: the claim says `Write` with the empty chunk is an identity on the
rewriter state and produces no output, for every state. After writing
"a\nb\n" the buffer holds the reachable leftover "b\n"; a subsequent `Write`
of the empty chunk then extracts that line, emits a formatted line, and
empties the buffer — neither identity nor silence. -/
theorem C7_empty_write_flushes_leftover :
    ((NewNoticeConsoleRewriter 0).Write ("a\nb\n".toList) none).state.buffer =
      "b\n".toList ∧
    ((((NewNoticeConsoleRewriter 0).Write ("a\nb\n".toList) none).state.Write []
        none).stderrWrites = ["  \n".toList]) ∧
    ((((NewNoticeConsoleRewriter 0).Write ("a\nb\n".toList) none).state.Write []
        none).state.buffer = []) := by
  decide

/-- C8: every newline-terminated line on which `json.Unmarshal` reports an
error surfaces no error to the caller and still emits exactly one `os.Stderr`
line built from the partially populated struct — whatever fields were
recoverable carry their decoded values and the unrecoverable ones keep the
zero value, the empty string; a valid line fed in a subsequent call is
processed and formatted correctly. -/
theorem C8_malformed_then_valid (w : Nat) (L : List Char) (obj : NoticeObject)
    (L2 : List Char) (obj2 : NoticeObject)
    (hL : '\n' ∉ L) (hbad : jsonUnmarshalNotice L = (obj, true))
    (hL2 : '\n' ∉ L2) (hv : jsonUnmarshalNotice L2 = (obj2, false)) :
    ((NewNoticeConsoleRewriter w).Write (L ++ ['\n']) none).err = none ∧
    ((NewNoticeConsoleRewriter w).Write (L ++ ['\n']) none).stderrWrites =
      [formatNotice obj] ∧
    (((NewNoticeConsoleRewriter w).Write (L ++ ['\n']) none).state.Write
        (L2 ++ ['\n']) none).stderrWrites = [formatNotice obj2] := by
  have hsplit1 : (NewNoticeConsoleRewriter w).buffer ++ (L ++ ['\n']) = L ++ '\n' :: [] := by
    simp [NewNoticeConsoleRewriter]
  have h1 := Write_complete_line (NewNoticeConsoleRewriter w) (L ++ ['\n']) L [] none hL hsplit1
  refine ⟨by rw [h1], by rw [h1, hbad], ?_⟩
  have hstate : ((NewNoticeConsoleRewriter w).Write (L ++ ['\n']) none).state =
      ⟨w, []⟩ := by rw [h1]; rfl
  rw [hstate]
  have hsplit2 : (⟨w, []⟩ : NoticeConsoleRewriter).buffer ++ (L2 ++ ['\n']) =
      L2 ++ '\n' :: [] := by simp
  have h2 := Write_complete_line ⟨w, []⟩ (L2 ++ ['\n']) L2 [] none hL2 hsplit2
  rw [h2, hv]

/-- C8 witness: a totally unrecoverable line ("not json", every field
defaulting to empty) and a partially recoverable one (`noticeType` a number:
decode error, yet `data` and `timestamp` populated, emitting "T  1\n"), each
followed by a valid line, evaluated. -/
theorem C8_witness :
    ((NewNoticeConsoleRewriter 0).Write ("not json".toList ++ ['\n']) none).err = none ∧
    ((NewNoticeConsoleRewriter 0).Write ("not json".toList ++ ['\n'])
        none).stderrWrites = ["  \n".toList] ∧
    ((NewNoticeConsoleRewriter 0).Write (C8mixedLine ++ ['\n']) none).err = none ∧
    ((NewNoticeConsoleRewriter 0).Write (C8mixedLine ++ ['\n'])
        none).stderrWrites = ["T  1\n".toList] ∧
    (((NewNoticeConsoleRewriter 0).Write (C8mixedLine ++ ['\n'])
        none).state.Write (C8line2 ++ ['\n']) none).stderrWrites =
      ["T2 Alert [1,2]\n".toList] := by
  have h1 := C8_malformed_then_valid 0 ("not json".toList) zeroNoticeObject C8line2
    ⟨"Alert".toList, "[1,2]".toList, "T2".toList⟩
    (by decide) (by decide) (by decide) (by decide)
  have h2 := C8_malformed_then_valid 0 C8mixedLine ⟨[], "1".toList, "T".toList⟩ C8line2
    ⟨"Alert".toList, "[1,2]".toList, "T2".toList⟩
    (by decide) (by decide) (by decide) (by decide)
  exact ⟨h1.1, h1.2.1.trans (by decide), h2.1, h2.2.1.trans (by decide),
    h2.2.2.trans (by decide)⟩

/-- C10: the buffer after a `Write` call is a contiguous suffix of the old
buffer followed by the chunk: some prefix `consumed` of `buffer ++ p` is
removed, and it is either empty or exactly one newline-free extracted line
plus its terminating newline — the very line formatted and emitted during
the call. -/
theorem C10_buffer_suffix (r : NoticeConsoleRewriter) (p : List Char)
    (f : Option (List Char)) :
    ∃ consumed, consumed ++ (r.Write p f).state.buffer = r.buffer ++ p ∧
      (consumed = [] ∨ ∃ line, consumed = line ++ ['\n'] ∧ '\n' ∉ line ∧
        (r.Write p f).stderrWrites = [formatNotice (jsonUnmarshalNotice line).1]) := by
  rcases hidx : bytesIndexNewline (r.buffer ++ p) with _ | i
  · refine ⟨[], ?_, Or.inl rfl⟩
    simp [NoticeConsoleRewriter.Write, hidx]
  · obtain ⟨hmem, htake⟩ := bytesIndexNewline_some hidx
    refine ⟨(r.buffer ++ p).take (i + 1), ?_,
      Or.inr ⟨(r.buffer ++ p).take i, htake, hmem, ?_⟩⟩
    · simp [NoticeConsoleRewriter.Write, hidx]
    · simp [NoticeConsoleRewriter.Write, hidx]
